import Mathlib

/-!
Verification development for the release-monorepo-action repository.

The definitions below are a shallow embedding of the TypeScript sources:
  * `src/version.ts` — pure commit classification (`parseConventionalCommit`,
    `determineVersionBump`, `calculateNewVersion`, `generateChangelog`);
  * `src/github.ts` — the pure fragments of the GitHub gateway
    (`generateReleasePRTitle`, `updateManifest`, `getLatestRcVersion`,
    `createRelease`'s tag derivation, `getReleaseTargetToLatestChanges`,
    `createVersionBumpPullRequest`'s tree construction, commit filtering);
  * `src/main.ts` — the orchestrator `run`, modelled as a pure function from
    an environment snapshot (the results of all remote reads) to the list of
    side-effecting gateway write actions plus outputs.

JavaScript-specific behaviour is modelled explicitly where it matters:
template-literal coercion of `undefined` to the string "undefined" is
`jsUndefStr`, `parseInt` is `jsParseIntNat`, the `RegExp` built by
`getLatestRcVersion` (whose `.` characters are wildcards because the
interpolated path/version is not regex-escaped) is `rcFindMatch`.
-/

/-- `VersionBump` from `src/types.ts`: ordered enum none < patch < minor < major. -/
inductive VersionBump where
  | none
  | patch
  | minor
  | major
  deriving DecidableEq, Repr

/-- Numeric rank of a bump under the total order none < patch < minor < major. -/
def VersionBump.ord : VersionBump → Nat
  | .none => 0
  | .patch => 1
  | .minor => 2
  | .major => 3

/-- Maximum of two bumps under the total order none < patch < minor < major. -/
def maxBump (a b : VersionBump) : VersionBump :=
  if a.ord < b.ord then b else a

/-- `ConventionalCommit` from `src/types.ts`. `type` is a plain string in the
source; `scope` is optional (JS `undefined` when the regex group is absent). -/
structure ConventionalCommit where
  type : String
  scope : Option String
  breaking : Bool
  message : String
  hash : String
  deriving DecidableEq, Repr

/-- The `CONVENTIONAL_COMMIT_TYPES` table of `src/version.ts` as a function.
A type outside the table maps to `undefined` in JS; in `determineVersionBump`
an `undefined` bump falls through every guard, which is observationally the
same as `none`, so the table's default here is `none`. -/
def bumpForType (t : String) : VersionBump :=
  if t == "feat" then .minor
  else if t == "fix" then .patch
  else if t == "docs" then .none
  else if t == "style" then .none
  else if t == "refactor" then .patch
  else if t == "perf" then .patch
  else if t == "test" then .none
  else if t == "chore" then .none
  else if t == "revert" then .patch
  else if t == "ci" then .none
  else if t == "build" then .none
  else .none

/-- Loop body of `determineVersionBump`: the running `highestBump` is updated
exactly under the source's guard
`bump === 'major' || (bump === 'minor' && highest !== 'major') ||
 (bump === 'patch' && highest === 'none')`, and the loop returns `'major'`
immediately on a breaking commit. -/
def determineVersionBumpAux : VersionBump → List ConventionalCommit → VersionBump
  | h, [] => h
  | h, c :: cs =>
    if c.breaking then .major
    else
      let b := bumpForType c.type
      let h' := if b = .major ∨ (b = .minor ∧ h ≠ .major) ∨ (b = .patch ∧ h = .none)
        then b else h
      determineVersionBumpAux h' cs

/-- `determineVersionBump` from `src/version.ts`. -/
def determineVersionBump (commits : List ConventionalCommit) : VersionBump :=
  determineVersionBumpAux .none commits

/-- The eleven conventional commit types, in the alternation order of the
regex in `parseConventionalCommit`. No type is a prefix of another, so the
regex alternation is deterministic. -/
def commitTypes : List String :=
  ["feat", "fix", "docs", "style", "refactor", "perf", "test", "chore", "revert", "ci", "build"]

/-- Strip a literal prefix from a character list. -/
def stripLit : List Char → List Char → Option (List Char)
  | [], s => some s
  | _, [] => Option.none
  | p :: ps, c :: cs => if p = c then stripLit ps cs else Option.none

/-- Match the `(?<type>feat|fix|...)` alternation at the start of the input. -/
def findTypeAlt : List String → List Char → Option (String × List Char)
  | [], _ => Option.none
  | t :: ts, s =>
    match stripLit t.data s with
    | some r => some (t, r)
    | Option.none => findTypeAlt ts s

/-- JS `.` (no `s` flag) refuses line terminators: LF, CR, U+2028, U+2029. -/
def isLineTerm (c : Char) : Bool :=
  c = '\n' ∨ c = '\r' ∨ c.toNat = 8232 ∨ c.toNat = 8233

/-- Groups captured by the conventional-commit regex. -/
structure ConvGroups where
  type : String
  scope : Option String
  breaking : Bool
  msg : String
  deriving DecidableEq, Repr

/-- The regex
`^(?<type>...)(?:\((?<scope>[^)]+)\))?(?<breaking>!)?: (?<message>.+)$`
of `parseConventionalCommit`, as a deterministic matcher. The optional scope
group `\((?<scope>[^)]+)\)` commits to the characters before the first `)`;
when a `(` follows the type the skipped-group branch can never succeed
(it would need `:` at the position of the `(`), and similarly for `!`,
so backtracking never produces an alternative match. `(?<message>.+)$` with
neither `s` nor `m` flag means: nonempty remainder without line terminators. -/
def matchConv (message : String) : Option ConvGroups :=
  match findTypeAlt commitTypes message.data with
  | Option.none => Option.none
  | some (t, rest) =>
    let scopeRes : Option (Option String × List Char) :=
      match rest with
      | '(' :: r =>
        let inner := r.takeWhile (fun c => c ≠ ')')
        let after := r.dropWhile (fun c => c ≠ ')')
        match after with
        | ')' :: r2 => if inner.isEmpty then Option.none else some (some (String.mk inner), r2)
        | _ => Option.none
      | _ => some (Option.none, rest)
    match scopeRes with
    | Option.none => Option.none
    | some (sc, rest1) =>
      let (bang, rest2) :=
        match rest1 with
        | '!' :: r => (true, r)
        | _ => (false, rest1)
      match rest2 with
      | ':' :: ' ' :: msg =>
        if msg.isEmpty ∨ msg.any isLineTerm then Option.none
        else some { type := t, scope := sc, breaking := bang, msg := String.mk msg }
      | _ => Option.none

/-- `parseConventionalCommit` from `src/version.ts`: on a regex match, build
the record from the captured groups (`type` and `message` are necessarily
nonempty, so the `|| 'chore'` / `|| message` fallbacks are no-ops); on no
match, degrade to a `chore` record carrying the whole raw message. -/
def parseConventionalCommit (message : String) : ConventionalCommit :=
  match matchConv message with
  | Option.none =>
    { type := "chore", scope := Option.none, breaking := false, message := message, hash := "" }
  | some g =>
    { type := g.type, scope := g.scope, breaking := g.breaking, message := g.msg, hash := "" }

/-- Split a character list on a separator, keeping empty segments
(the semantics of `String.splitOn` / JS `split`). -/
def splitListOn (sep : Char) : List Char → List (List Char)
  | [] => [[]]
  | x :: xs =>
    match splitListOn sep xs with
    | [] => [[x]]
    | h :: t => if x = sep then [] :: h :: t else (x :: h) :: t

/-- `String.splitOn` for a single-character separator, via character lists
(the core function is not kernel-reducible). -/
def strSplitOnChar (sep : Char) (s : String) : List String :=
  (splitListOn sep s.data).map String.mk

/-- `String.startsWith`, via character lists. -/
def strStartsWith (s p : String) : Bool :=
  (stripLit p.data s.data).isSome

/-- `String.trim`, via character lists. -/
def charTrim (l : List Char) : List Char :=
  ((l.dropWhile Char.isWhitespace).reverse.dropWhile Char.isWhitespace).reverse

/-- `String.intercalate`, via structural recursion. -/
def joinSep (sep : String) : List String → String
  | [] => ""
  | [x] => x
  | x :: y :: xs => x ++ sep ++ joinSep sep (y :: xs)

/-- The fixed section-title table of `generateChangelog`, in object-insertion
order (JS `Object.entries` iterates string keys in insertion order). -/
def sectionTitles : List String :=
  ["🚀 Features", "🐛 Fixes", "📝 Documentation", "♻️ Refactors", "⚡️ Performance",
   "🧪 Tests", "🔧 Chores", "⏪ Reverts", "🔨 Build", "👷 CI"]

/-- The `switch (commit.type)` of `generateChangelog`. Note the source has no
`case 'style'`, so `style` commits fall into the default Chores bucket. -/
def sectionOf (t : String) : String :=
  if t == "feat" then "🚀 Features"
  else if t == "fix" then "🐛 Fixes"
  else if t == "docs" then "📝 Documentation"
  else if t == "refactor" then "♻️ Refactors"
  else if t == "perf" then "⚡️ Performance"
  else if t == "test" then "🧪 Tests"
  else if t == "chore" then "🔧 Chores"
  else if t == "revert" then "⏪ Reverts"
  else if t == "build" then "🔨 Build"
  else if t == "ci" then "👷 CI"
  else "🔧 Chores"

/-- One changelog line: breaking commits get the fixed marker. -/
def renderCommit (c : ConventionalCommit) : String :=
  "- " ++ (if c.breaking then "**BREAKING CHANGE:** " ++ c.message else c.message)

/-- The lines pushed into one section's bucket, in commit order. -/
def sectionItems (commits : List ConventionalCommit) (title : String) : List String :=
  (commits.filter (fun c => sectionOf c.type == title)).map renderCommit

/-- The titles whose buckets are nonempty (the `.filter` over
`Object.entries(sections)`), in table order. -/
def usedTitles (commits : List ConventionalCommit) : List String :=
  sectionTitles.filter (fun t => !(sectionItems commits t).isEmpty)

/-- `generateChangelog` from `src/version.ts`. -/
def generateChangelog (commits : List ConventionalCommit) : String :=
  joinSep "\n\n"
    ((usedTitles commits).map
      (fun t => "### " ++ t ++ "\n\n" ++ joinSep "\n" (sectionItems commits t)))

/-- Numeric value of a digit run. -/
def digitsVal (l : List Char) : Nat :=
  l.foldl (fun a c => a * 10 + (c.toNat - 48)) 0

/-- Parse `0|[1-9]\d*` (a semver numeric field: no leading zeros). -/
def parseNumStrict (s : List Char) : Option (Nat × List Char) :=
  let ds := s.takeWhile Char.isDigit
  let rest := s.dropWhile Char.isDigit
  if ds.isEmpty then Option.none
  else if 1 < ds.length ∧ ds.head? = some '0' then Option.none
  else some (digitsVal ds, rest)

/-- Expect one literal character. -/
def expectChar (c : Char) : List Char → Option (List Char)
  | [] => Option.none
  | x :: xs => if x = c then some xs else Option.none

/-- A character allowed in semver prerelease/build identifiers:
`[0-9A-Za-z-]` (`Char.isAlphanum` is ASCII-only). -/
def semIdChar (c : Char) : Bool :=
  c.isAlphanum || c = '-'

/-- A valid prerelease identifier: nonempty, `[0-9A-Za-z-]`, and purely
numeric identifiers must not have a leading zero. -/
def preIdOkB (id : List Char) : Bool :=
  !id.isEmpty && id.all semIdChar &&
    (!(id.all Char.isDigit) || id.length == 1 || id.head? != some '0')

/-- A valid build identifier: nonempty, `[0-9A-Za-z-]`. -/
def buildIdOkB (id : List Char) : Bool :=
  !id.isEmpty && id.all semIdChar

/-- A prerelease identifier, classified for precedence comparison: numeric
identifiers compare as numbers and sort below alphanumeric ones. -/
def classifyId (id : List Char) : Sum Nat String :=
  if id.all Char.isDigit then Sum.inl (digitsVal id) else Sum.inr (String.mk id)

/-- A parsed semantic version as produced by node-semver's strict parser.
Build metadata is recorded but ignored by precedence comparison. -/
structure Semver where
  major : Nat
  minor : Nat
  patch : Nat
  pre : List (Sum Nat String)
  build : List String
  deriving DecidableEq, Repr

/-- Parse the `-prerelease+build` tail after the patch field. -/
def parseSemverTail : List Char → Option (List (Sum Nat String) × List String)
  | [] => some ([], [])
  | '-' :: r =>
    let preChars := r.takeWhile (fun c => c ≠ '+')
    let rest := r.dropWhile (fun c => c ≠ '+')
    let ids := splitListOn '.' preChars
    if ids.all preIdOkB then
      match rest with
      | '+' :: b =>
        let bids := splitListOn '.' b
        if bids.all buildIdOkB then some (ids.map classifyId, bids.map String.mk)
        else Option.none
      | _ => some (ids.map classifyId, [])
    else Option.none
  | '+' :: b =>
    let bids := splitListOn '.' b
    if bids.all buildIdOkB then some ([], bids.map String.mk) else Option.none
  | _ => Option.none

/-- `semver.parse` (strict mode) as used by `calculateNewVersion`: trim,
optional leading `v`, three dot-separated numeric fields without leading
zeros, optional prerelease and build parts. (node-semver's 256-character and
`MAX_SAFE_INTEGER` caps are not modelled; no input considered here is near
them.) -/
def parseSemver (s : String) : Option Semver := do
  let s0 := charTrim s.data
  let s1 := match s0 with
    | 'v' :: r => r
    | r => r
  let (maj, r1) ← parseNumStrict s1
  let r2 ← expectChar '.' r1
  let (mnr, r3) ← parseNumStrict r2
  let r4 ← expectChar '.' r3
  let (pat, r5) ← parseNumStrict r4
  let (pre, build) ← parseSemverTail r5
  pure { major := maj, minor := mnr, patch := pat, pre := pre, build := build }

/-- The JS `preReleaseNumber || 1` default: `undefined` and `0` become `1`. -/
def rcNumOrOne : Option Nat → Nat
  | some k => if k = 0 then 1 else k
  | Option.none => 1

/-- `calculateNewVersion` from `src/version.ts`. Throwing
(`throw new Error('Invalid version: ...')`) is modelled as `Except.error`.
Note that for `bump = none` the *string* `currentVersion` is kept unchanged,
and that the `-rc.<n>` suffix is appended unconditionally whenever
`isPreRelease` is set — including when the current version already ends in
such a suffix. -/
def calculateNewVersion (currentVersion : String) (bump : VersionBump)
    (isPreRelease : Bool) (preReleaseNumber : Option Nat) : Except String String :=
  match parseSemver currentVersion with
  | Option.none => Except.error ("Invalid version: " ++ currentVersion)
  | some version =>
    let newVersion :=
      match bump with
      | .major => toString (version.major + 1) ++ ".0.0"
      | .minor => toString version.major ++ "." ++ toString (version.minor + 1) ++ ".0"
      | .patch =>
        toString version.major ++ "." ++ toString version.minor ++ "."
          ++ toString (version.patch + 1)
      | .none => currentVersion
    Except.ok
      (if isPreRelease then newVersion ++ "-rc." ++ toString (rcNumOrOne preReleaseNumber)
       else newVersion)

/-- Three-way comparison on `Nat`, written so reflexivity is immediate. -/
def natCmp (a b : Nat) : Ordering :=
  if a < b then .lt else if a = b then .eq else .gt

/-- Compare characters by code point (ASCII order on identifiers). -/
def chCmp (a b : Char) : Ordering :=
  natCmp a.toNat b.toNat

/-- Lexicographic comparison of character lists. -/
def strCmpL : List Char → List Char → Ordering
  | [], [] => .eq
  | [], _ :: _ => .lt
  | _ :: _, [] => .gt
  | a :: as, b :: bs => (chCmp a b).then (strCmpL as bs)

/-- semver identifier precedence: numeric < alphanumeric; numerics compare
as numbers, alphanumerics in ASCII order. -/
def identCmp : Sum Nat String → Sum Nat String → Ordering
  | .inl a, .inl b => natCmp a b
  | .inl _, .inr _ => .lt
  | .inr _, .inl _ => .gt
  | .inr a, .inr b => strCmpL a.data b.data

/-- Lexicographic comparison of identifier lists (a strict prefix is lower). -/
def preLex : List (Sum Nat String) → List (Sum Nat String) → Ordering
  | [], [] => .eq
  | [], _ :: _ => .lt
  | _ :: _, [] => .gt
  | a :: as, b :: bs => (identCmp a b).then (preLex as bs)

/-- semver prerelease precedence: a version without prerelease outranks any
prerelease of the same triple. -/
def cmpPre : List (Sum Nat String) → List (Sum Nat String) → Ordering
  | [], [] => .eq
  | [], _ :: _ => .gt
  | _ :: _, [] => .lt
  | a, b => preLex a b

/-- semver precedence on parsed versions (build metadata ignored). -/
def cmpSemver (a b : Semver) : Ordering :=
  (natCmp a.major b.major).then
    ((natCmp a.minor b.minor).then
      ((natCmp a.patch b.patch).then (cmpPre a.pre b.pre)))

/-- `x ≤ y` on version strings via semver precedence; unparsable strings are
never `≤` anything. -/
def verLeB (x y : String) : Bool :=
  match parseSemver x, parseSemver y with
  | some a, some b =>
    match cmpSemver a b with
    | .gt => false
    | _ => true
  | _, _ => false

/-- `x < y` on version strings via semver precedence. -/
def verLtB (x y : String) : Bool :=
  match parseSemver x, parseSemver y with
  | some a, some b =>
    match cmpSemver a b with
    | .lt => true
    | _ => false
  | _, _ => false

/-- JS template-literal coercion: `undefined` interpolates as "undefined". -/
def jsUndefStr : Option String → String
  | some s => s
  | Option.none => "undefined"

/-- Render a `Bool` the way `core.setOutput` stringifies it. -/
def jsBoolStr (b : Bool) : String :=
  if b then "true" else "false"

/-- Node's `path.basename`: last nonempty `/`-separated component. -/
def basename (p : String) : String :=
  match ((strSplitOnChar '/' p).filter (fun s => s ≠ "")).getLast? with
  | some s => s
  | Option.none => p

/-- JS `parseInt(s, 10)` restricted to non-negative results: skip leading
whitespace and an optional `+`, read leading digits, `NaN` (here `none`)
when there are none. (A leading `-` never occurs in the version fields this
models.) -/
def jsParseIntNat (s : String) : Option Nat :=
  let t := s.data.dropWhile Char.isWhitespace
  let t1 := match t with
    | '+' :: r => r
    | r => r
  let ds := t1.takeWhile Char.isDigit
  if ds.isEmpty then Option.none else some (digitsVal ds)

/-- `${parseInt(part) + 1}` for an optionally-present split component:
an absent component or one without leading digits renders as "NaN". -/
def jsIncStr : Option String → String
  | Option.none => "NaN"
  | some str =>
    match jsParseIntNat str with
    | Option.none => "NaN"
    | some n => toString (n + 1)

/-- The inline next-version computation of `run` (`src/main.ts`), which
splits the current version on `.` and rebuilds the string field by field
(it does not call `calculateNewVersion`). -/
def inlineBumpVersion (currentVersion : String) (bump : VersionBump) : String :=
  let parts := strSplitOnChar '.' currentVersion
  match bump with
  | .major => jsIncStr parts.head? ++ ".0.0"
  | .minor => jsUndefStr (parts.get? 0) ++ "." ++ jsIncStr (parts.get? 1) ++ ".0"
  | .patch =>
    jsUndefStr (parts.get? 0) ++ "." ++ jsUndefStr (parts.get? 1) ++ "." ++ jsIncStr (parts.get? 2)
  | .none => currentVersion

/-- `PackageTargetVersions` from `src/types.ts`: the distinguished `latest`
property plus the per-target properties, in object-insertion order. -/
structure TargetVersions where
  latest : String
  targets : List (String × String)
  deriving DecidableEq, Repr

/-- `PackageManifest`: package path → target versions, in insertion order. -/
abbrev Manifest := List (String × TargetVersions)

/-- JS property read `targetVersions[t]`: the `latest` property is visible
under its own key; other keys are looked up among the target properties. -/
def tvGet (tv : TargetVersions) (t : String) : Option String :=
  if t == "latest" then some tv.latest else tv.targets.lookup t

/-- JS property read `manifest[path]` (first binding wins). -/
def manifestFind (m : Manifest) (path : String) : Option TargetVersions :=
  (m.find? (fun e => e.1 == path)).map (fun e => e.2)

/-- JS property write on an association list: overwrite the first binding in
place, or append a new one. -/
def setAssoc : List (String × String) → String → String → List (String × String)
  | [], k, v => [(k, v)]
  | (k', v') :: rest, k, v =>
    if k' = k then (k, v) :: rest else (k', v') :: setAssoc rest k v

/-- The two assignments of `updateManifest`'s else-branch:
`manifest[path].latest = newVersion; manifest[path][target] = newVersion`.
When `target = "latest"` the second assignment re-writes `latest`. -/
def tvUpdate (tv : TargetVersions) (target v : String) : TargetVersions :=
  { latest := v,
    targets := if target == "latest" then tv.targets else setAssoc tv.targets target v }

/-- `PackageChanges` from `src/types.ts`. The `name` field is `Option`al:
the change records `run` builds in `src/main.ts` carry no `name` property
(JS `undefined`), while the gateway's own constructors set it to
`basename(path)`. -/
structure PackageChanges where
  name : Option String
  path : String
  currentVersion : String
  newVersion : String
  commits : List ConventionalCommit
  changelog : String
  releaseTarget : String
  deriving DecidableEq, Repr

/-- One iteration of `updateManifest`'s loop for a single change:
existing package → overwrite `latest` and the target key with `newVersion`;
absent package → insert `{ latest: newVersion, [target]: newVersion }`. -/
def applyChange (target : String) (m : Manifest) (c : PackageChanges) : Manifest :=
  match manifestFind m c.path with
  | some _ => m.map (fun e => if e.1 == c.path then (e.1, tvUpdate e.2 target c.newVersion) else e)
  | Option.none =>
    m ++ [(c.path,
      { latest := c.newVersion,
        targets := if target == "latest" then [] else [(target, c.newVersion)] })]

/-- `updateManifest` from `src/github.ts` (the in-place mutation modelled as
returning the new manifest). -/
def updateManifest (manifest : Manifest) (changes : List PackageChanges)
    (releaseTarget : String) : Manifest :=
  changes.foldl (applyChange releaseTarget) manifest

/-- `generateReleasePRTitle` from `src/github.ts`. A single non-root change
interpolates `change.name` (which is "undefined" for the records `run`
builds); multiple changes use the first change's release target. The source
would throw on an empty list (`changes[0]` is `undefined`); it is never
called that way, and the empty case here is an arbitrary placeholder. -/
def generateReleasePRTitle : List PackageChanges → String
  | [] => "chore: release undefined"
  | [c] =>
    if c.path == "." then "chore: release " ++ c.newVersion
    else "chore: release " ++ jsUndefStr c.name ++ "@" ++ c.newVersion
  | c :: _ :: _ => "chore: release " ++ c.releaseTarget

/-- `generateVersionBumpPRTitle` from `src/github.ts` (single change uses
`change.path`, not `change.name`). -/
def generateVersionBumpPRTitle : List PackageChanges → String
  | [] => "chore: bump undefined to latest"
  | [c] => "chore: bump " ++ c.releaseTarget ++ " to " ++ c.path ++ "@" ++ c.newVersion
  | c :: _ :: _ => "chore: bump " ++ c.releaseTarget ++ " to latest"

/-- The tag + release object `createRelease` builds for one package change. -/
structure TagSpec where
  tagName : String
  releaseName : String
  body : String
  prerelease : Bool
  version : String
  deriving DecidableEq, Repr

/-- The version-and-name derivation of one `createRelease` loop iteration:
`prerelease ? change.newVersion : manifest[change.path][change.releaseTarget]`;
a missing package object makes the JS property chain throw (`Except.error`),
a missing target key interpolates as "undefined"; the root package `.` omits
the basename segment from tag and release names. -/
def specFor (manifest : Manifest) (prerelease : Bool) (c : PackageChanges) :
    Except String TagSpec :=
  let vRes : Except String String :=
    if prerelease then Except.ok c.newVersion
    else
      match manifestFind manifest c.path with
      | Option.none =>
        Except.error ("TypeError: cannot read properties of undefined for " ++ c.path)
      | some tv => Except.ok (jsUndefStr (tvGet tv c.releaseTarget))
  match vRes with
  | Except.error e => Except.error e
  | Except.ok v =>
    Except.ok
      { tagName := if c.path == "." then "v" ++ v else basename c.path ++ "-v" ++ v,
        releaseName := if c.path == "." then "v" ++ v else basename c.path ++ " v" ++ v,
        body := c.changelog,
        prerelease := prerelease,
        version := v }

/-- `createRelease` from `src/github.ts`, reduced to the tag/release records
it creates (the manifest parameter is the one it re-reads from the default
branch via `getManifestFromMain`). -/
def createRelease (manifest : Manifest) (changes : List PackageChanges)
    (prerelease : Bool) : Except String (List TagSpec) :=
  changes.mapM (specFor manifest prerelease)

/-- A character of the `RegExp` source built by `getLatestRcVersion`:
interpolated `.` characters are unescaped and act as wildcards; all other
interpolated characters, and the escaped `-rc\.` dot, are literals. -/
inductive PatChar where
  | lit (c : Char)
  | dot
  deriving DecidableEq, Repr

/-- Interpolate a string into a regex: its dots become wildcards. -/
def rcPatOf (s : String) : List PatChar :=
  s.data.map (fun c => if c = '.' then PatChar.dot else PatChar.lit c)

/-- Literal regex characters. -/
def litsOf (s : String) : List PatChar :=
  s.data.map PatChar.lit

/-- Match a pattern at the head of the input; a wildcard matches any
character except a line terminator. Returns the rest of the input. -/
def rcPatHere : List PatChar → List Char → Option (List Char)
  | [], s => some s
  | _ :: _, [] => Option.none
  | PatChar.lit p :: ps, c :: cs => if p = c then rcPatHere ps cs else Option.none
  | PatChar.dot :: ps, c :: cs => if isLineTerm c then Option.none else rcPatHere ps cs

/-- Match the pattern followed by the capture group `(\d+)` (greedy, at least
one digit) at the head of the input, returning the captured number. -/
def rcMatchHere (pat : List PatChar) (s : List Char) : Option Nat :=
  match rcPatHere pat s with
  | Option.none => Option.none
  | some rest =>
    let ds := rest.takeWhile Char.isDigit
    if ds.isEmpty then Option.none else some (digitsVal ds)

/-- `RegExp.test`/`match` over a whole string: leftmost match wins. -/
def rcFindMatch (pat : List PatChar) : List Char → Option Nat
  | [] => rcMatchHere pat []
  | c :: tail =>
    match rcMatchHere pat (c :: tail) with
    | some n => some n
    | Option.none => rcFindMatch pat tail

/-- A GitHub release as `getLatestRcVersion` sees it. -/
structure Release where
  tagName : String
  prerelease : Bool
  deriving DecidableEq, Repr

/-- `getLatestRcVersion` from `src/github.ts`: the pattern is
`` `${packagePath}-v${baseVersion}-rc\.(\d+)` `` (path and version are not
regex-escaped, so their dots are wildcards); the source filters releases by
`test`, sorts descending by the captured number and takes the head, i.e. the
maximum captured number, then adds 1; with no match it returns 1 — which
coincides with `fold max 0 + 1`. -/
def getLatestRcVersion (releases : List Release) (packagePath baseVersion : String) : Nat :=
  let pat := rcPatOf packagePath ++ litsOf "-v" ++ rcPatOf baseVersion
    ++ litsOf "-rc" ++ [PatChar.lit '.']
  let ns := releases.filterMap (fun r => rcFindMatch pat r.tagName.data)
  ns.foldl Nat.max 0 + 1

/-- `getReleaseTargetToLatestChanges` from `src/github.ts`: one catch-up
change per package whose target version differs from `latest` (a missing
target key is JS `undefined`, which also differs). -/
def getReleaseTargetToLatestChanges (manifest : Manifest) (releaseTarget : String) :
    List PackageChanges :=
  manifest.filterMap (fun e =>
    if tvGet e.2 releaseTarget != some e.2.latest then
      some { name := some (basename e.1), path := e.1,
             currentVersion := jsUndefStr (tvGet e.2 releaseTarget),
             newVersion := e.2.latest, commits := [],
             changelog := "Bumped " ++ releaseTarget ++ " to " ++ e.2.latest,
             releaseTarget := releaseTarget }
    else Option.none)

/-- First change's release target (source reads `changes[0].releaseTarget`). -/
def headTarget : List PackageChanges → String
  | [] => "undefined"
  | c :: _ => c.releaseTarget

/-- What `createVersionBumpPullRequest` commits: its branch, title, the set
of tree paths it touches, and the manifest content it writes. -/
structure VersionBumpPRSpec where
  title : String
  branch : String
  treePaths : List String
  newManifest : Manifest
  deriving DecidableEq, Repr

/-- `createVersionBumpPullRequest` from `src/github.ts`, reduced to the
commit it builds: unlike `createReleasePullRequest`, its tree contains only
the manifest blob — no package files, no changelogs. -/
def createVersionBumpPullRequest (manifestFromMain : Manifest)
    (changes : List PackageChanges) (manifestFile : String) : VersionBumpPRSpec :=
  { title := generateVersionBumpPRTitle changes,
    branch := "release-" ++ headTarget changes,
    treePaths := [manifestFile],
    newManifest := updateManifest manifestFromMain changes (headTarget changes) }

/-- A commit as returned by the compare API (with the touched-file names
fetched per commit when `checkPaths` is set, as `run` always does). -/
structure Commit where
  sha : String
  message : String
  files : List String
  deriving DecidableEq, Repr

/-- The per-commit relevance filter of `getAllCommitsSinceLastRelease`:
parse the message and keep the commit iff its own bump is not `none`. -/
def relevantCommit (c : Commit) : Bool :=
  determineVersionBump [parseConventionalCommit c.message] != VersionBump.none

/-- Split the commit stream into the 100-commit pages the compare API
serves; the fuel (initially the list length, an upper bound on the number of
pages) keeps the recursion structural so that it kernel-reduces. -/
def pagesOfAux : Nat → List Commit → List (List Commit)
  | 0, _ => []
  | _, [] => []
  | fuel + 1, l => l.take 100 :: pagesOfAux fuel (l.drop 100)

/-- Split the commit stream into the 100-commit pages the compare API
serves. -/
def pagesOf (l : List Commit) : List (List Commit) :=
  pagesOfAux l.length l

/-- The paging loop of `getAllCommitsSinceLastRelease`: stop on an empty
page, and stop early as soon as a page contributes no relevant commit;
otherwise accumulate the page's relevant commits. -/
def collectPages : List (List Commit) → List Commit
  | [] => []
  | page :: rest =>
    if page.isEmpty then []
    else
      let rel := page.filter relevantCommit
      if rel.isEmpty then [] else rel ++ collectPages rest

/-- `getAllCommitsSinceLastRelease` from `src/github.ts`, as a function of
the raw commit stream the compare API yields for the chosen base (the most
recent non-prerelease release tag, or the bounded lookback window — both
remote reads, so the stream itself is an environment input). -/
def getAllCommitsSinceLastRelease (rawCommits : List Commit) : List Commit :=
  collectPages (pagesOf rawCommits)

/-- `getCommitsSinceLastRelease` from `src/github.ts`: the root package `.`
keeps every commit message; a subpackage keeps the messages of commits with
at least one touched file whose name starts with the package path. -/
def getCommitsSinceLastRelease (packagePath : String) (allCommits : List Commit) :
    List String :=
  if packagePath == "." then allCommits.map (fun c => c.message)
  else
    (allCommits.filter (fun c => c.files.any (fun f => strStartsWith f packagePath))).map
      (fun c => c.message)

/-- The gateway write operations `run` can issue, in invocation order. -/
inductive GwAction where
  | addLabel (label : String) (pr : Nat)
  | removeLabel (label : String) (pr : Nat)
  | comment (body : String)
  | cutRelease (specs : List TagSpec) (prerelease : Bool)
  | releasePR (title : String) (changes : List PackageChanges)
  | versionBumpPR (title : String) (changes : List PackageChanges)
  deriving DecidableEq, Repr

/-- Is this action the opening/updating of a release PR? -/
def GwAction.isReleasePR : GwAction → Bool
  | .releasePR _ _ => true
  | _ => false

/-- Is this action the opening/updating of a version-bump PR? -/
def GwAction.isVersionBumpPR : GwAction → Bool
  | .versionBumpPR _ _ => true
  | _ => false

/-- Is this action a tag/release cut, and with which prerelease flag? -/
def GwAction.cutFlag : GwAction → Option Bool
  | .cutRelease _ p => some p
  | _ => Option.none

/-- One invocation's environment snapshot: the action inputs plus the result
of every remote read `run` (and the gateway calls it makes) performs.
`manifest` is the normalized result of `getManifestFromMain`;
`manifestUpdatedInLastCommit`, `prFromCommitSha` and `prByVersions` are the
results of the corresponding read-only gateway lookups. -/
structure Env where
  rootDir : String
  manifestFile : String
  createPreReleases : Bool
  prereleaseLabel : String
  releaseTarget : String
  isPullRequest : Bool
  prNumber : Option Nat
  issueNumber : Nat
  headRef : String
  contextSha : String
  prLabels : List String
  remoteBranchExists : String → Bool
  manifest : Manifest
  rawCommits : List Commit
  releases : List Release
  manifestUpdatedInLastCommit : Bool
  prFromCommitSha : Option Nat
  prByVersions : Option Nat

/-- The outcome of one `run` invocation: the `core.setOutput` pairs, the
gateway writes, and the message of `core.setFailed` when the catch block was
reached. -/
structure RunResult where
  outputs : List (String × String)
  actions : List GwAction
  failed : Option String
  deriving DecidableEq, Repr

/-- `getPullRequestLabels`: empty unless the event is a pull request with a
(truthy) number. -/
def runLabels (env : Env) : List String :=
  if env.isPullRequest && env.prNumber.isSome then env.prLabels else []

/-- `isDeletedReleaseBranch` from `src/github.ts`: on the `release-<target>`
head ref, report whether the remote branch is gone. -/
def isDeletedReleaseBranch (env : Env) : Bool :=
  env.headRef == "release-" ++ env.releaseTarget
    && !(env.remoteBranchExists ("release-" ++ env.releaseTarget))

/-- `createComment` posts only when the context carries a PR number. -/
def commentActs (env : Env) (body : String) : List GwAction :=
  match env.prNumber with
  | some _ => [GwAction.comment body]
  | Option.none => []

/-- One iteration of `run`'s per-package loop (`src/main.ts`): filter the
commits to the package, parse them, fold the bump, rebuild the version
inline from `targetVersions.latest`, and append the `-rc.<n>` suffix on
prerelease runs using `getLatestRcVersion`. (The source's
`if (!versionBump)` guard never fires: the string `'none'` is truthy.)
The record pushed has no `name` property. -/
def packageChange (env : Env) (allCommits : List Commit) (isPre : Bool)
    (entry : String × TargetVersions) : Option PackageChanges :=
  let commits := getCommitsSinceLastRelease entry.1 allCommits
  if commits.isEmpty then Option.none
  else
    let parsed := commits.map parseConventionalCommit
    let versionBump := determineVersionBump parsed
    let currentVersion := entry.2.latest
    let base := inlineBumpVersion currentVersion versionBump
    let newVersion :=
      if isPre then base ++ "-rc." ++ toString (getLatestRcVersion env.releases entry.1 base)
      else base
    some { name := Option.none, path := entry.1, currentVersion := currentVersion,
           newVersion := newVersion, commits := parsed,
           changelog := generateChangelog parsed, releaseTarget := env.releaseTarget }

/-- The change list `run` computes. -/
def runChanges (env : Env) (allCommits : List Commit) (isPre : Bool) :
    List PackageChanges :=
  env.manifest.filterMap (packageChange env allCommits isPre)

/-- The prerelease summary comment body. -/
def prereleaseComment (changes : List PackageChanges) : String :=
  joinSep "\n"
    (["ℹ️ Created prereleases for the following packages:", ""]
      ++ changes.map (fun c => "- " ++ c.newVersion ++ " for " ++ c.path))

/-- `JSON.stringify` of the `versions` output array (no escaping needed: the
paths, targets and versions involved contain no quotes or backslashes). -/
def jsonVersions (changes : List PackageChanges) : String :=
  "[" ++ joinSep ","
    (changes.map (fun c =>
      "\x7b\"path\":\"" ++ c.path ++ "\",\"target\":\"" ++ c.releaseTarget
        ++ "\",\"version\":\"" ++ c.newVersion ++ "\"\x7d")) ++ "]"

/-- The `version`/`versions` outputs set once `changes` is nonempty. -/
def versionOutputs (changes : List PackageChanges) : List (String × String) :=
  match changes with
  | [c] => [("version", c.newVersion)]
  | _ => [("versions", jsonVersions changes)]

/-- The tail of `run` (`src/main.ts`) after `changes` is known nonempty:
prerelease → summary comment and a direct cut (note the source calls
`createRelease(changes)` *without* the prerelease flag, so it defaults to
`false`); `release-me` label with a resolvable PR → cut plus `released`
label; manifest touched in the last commit (squashed merge) → cut; else →
open/update the release PR. -/
def runTail (env : Env) (labels : List String) (isPre : Bool)
    (changes : List PackageChanges) (outs : List (String × String)) : RunResult :=
  if isPre then
    match createRelease env.manifest changes false with
    | Except.ok specs =>
      { outputs := outs,
        actions := commentActs env (prereleaseComment changes) ++ [GwAction.cutRelease specs false],
        failed := Option.none }
    | Except.error e =>
      { outputs := outs, actions := commentActs env (prereleaseComment changes),
        failed := some e }
  else
    match (if labels.contains "release-me" then
            (match env.prFromCommitSha with
             | some n => some n
             | Option.none => env.prByVersions)
           else Option.none) with
    | some n =>
      match createRelease env.manifest changes false with
      | Except.ok specs =>
        { outputs := outs,
          actions := [GwAction.cutRelease specs false, GwAction.addLabel "released" n],
          failed := Option.none }
      | Except.error e => { outputs := outs, actions := [], failed := some e }
    | Option.none =>
      if env.manifestUpdatedInLastCommit then
        match createRelease env.manifest changes false with
        | Except.ok specs =>
          { outputs := outs, actions := [GwAction.cutRelease specs false],
            failed := Option.none }
        | Except.error e => { outputs := outs, actions := [], failed := some e }
      else
        { outputs := outs,
          actions := [GwAction.releasePR (generateReleasePRTitle changes) changes],
          failed := Option.none }

/-- `run` from `src/main.ts` (the current orchestrator): the cascade of
early returns, the per-package change computation, and the final dispatch.
Each remote read is drawn from the environment snapshot; each remote write
becomes an `Action`. (`wasManifestUpdatedInLastCommit` is called with
`(manifestFile, rootDir)` against a `(manifestFile, releaseTarget, rootDir)`
signature — its result is simply the env field here.) -/
def run (env : Env) : RunResult :=
  if env.releaseTarget == "latest" then
    { outputs := [], actions := [],
      failed := some
        ("release-target cannot be \"latest\", because it is reserved for the latest release") }
  else
    let labels := runLabels env
    if isDeletedReleaseBranch env then
      if labels.contains "release-me" then
        { outputs := [],
          actions := [GwAction.addLabel "released" env.issueNumber,
                      GwAction.removeLabel "release-me" env.issueNumber],
          failed := Option.none }
      else { outputs := [], actions := [], failed := Option.none }
    else if labels.contains "released" then
      { outputs := [], actions := [], failed := Option.none }
    else
      let isPre := labels.contains env.prereleaseLabel
      if isPre && !env.createPreReleases then
        { outputs := [],
          actions := commentActs env
            ("⚠️ Prereleases are currently disabled. To enable prereleases, set the input \"create-prereleases\" to true in your workflow."),
          failed := Option.none }
      else
        let outs0 := [("prerelease", jsBoolStr isPre)]
        if env.manifest.isEmpty then
          { outputs := outs0, actions := [], failed := Option.none }
        else
          let allCommits := getAllCommitsSinceLastRelease env.rawCommits
          if allCommits.isEmpty then
            { outputs := outs0, actions := [], failed := Option.none }
          else
            let changes := runChanges env allCommits isPre
            if changes.isEmpty then
              { outputs := outs0, actions := [], failed := Option.none }
            else
              runTail env labels isPre changes (outs0 ++ versionOutputs changes)

/-- The manifest invariant claimed by the spec for one package entry: the
`latest` version parses, and every target version is `≤ latest` under semver
precedence. -/
def TvOk (tv : TargetVersions) : Prop :=
  (parseSemver tv.latest).isSome = true ∧ ∀ p ∈ tv.targets, verLeB p.2 tv.latest = true

/-- The manifest invariant: every package entry satisfies `TvOk`. -/
def InvManifest (m : Manifest) : Prop :=
  ∀ e ∈ m, TvOk e.2

/-- Does the character list contain the substring "-v"? The RC-version
pattern `getLatestRcVersion` builds for the root package `.` starts with a
wildcard followed by the literals `-v`, so it can only match inside a tag
containing "-v" — which the root tags `v<semver>` created by `createRelease`
never do. -/
def hasDashV : List Char → Bool
  | a :: b :: rest => (a = '-' && b = 'v') || hasDashV (b :: rest)
  | _ => false

/-- Environment for the catch-up scenario: the manifest records target
`canary` at 1.0.0 while `latest` is 2.0.0, and there are no commits since
the last release. -/
def envC3 : Env :=
  { rootDir := ".", manifestFile := ".release-manifest.json", createPreReleases := false,
    prereleaseLabel := "prerelease", releaseTarget := "canary", isPullRequest := false,
    prNumber := Option.none, issueNumber := 0, headRef := "refs/heads/main", contextSha := "s0",
    prLabels := [], remoteBranchExists := fun _ => true,
    manifest := [("pkg/a", { latest := "2.0.0", targets := [("canary", "1.0.0")] })],
    rawCommits := [], releases := [], manifestUpdatedInLastCommit := false,
    prFromCommitSha := Option.none, prByVersions := Option.none }

/-- Environment for the reference release-PR scenario: manifest
`pkg/a @ 1.0.0` on target `main`, one `feat(a): x` commit touching `pkg/a`,
push event on the default branch. -/
def envC8 : Env := { envC3 with
  releaseTarget := "main",
  manifest := [("pkg/a", { latest := "1.0.0", targets := [("main", "1.0.0")] })],
  rawCommits := [{ sha := "s1", message := "feat(a): x", files := ["pkg/a/src.ts"] }] }

/-- Environment for the prerelease scenario: prerelease-labeled PR with
prereleases enabled, root package at 1.0.0, one `feat` commit, and an
existing prerelease `v1.1.0-rc.1` already cut for the upcoming base 1.1.0. -/
def envC9 : Env := { envC3 with
  releaseTarget := "main", createPreReleases := true,
  isPullRequest := true, prNumber := some 5, issueNumber := 5, headRef := "feature-x",
  prLabels := ["prerelease"],
  manifest := [(".", { latest := "1.0.0", targets := [("main", "1.0.0")] })],
  rawCommits := [{ sha := "s1", message := "feat: x", files := ["src/a.ts"] }],
  releases := [{ tagName := "v1.1.0-rc.1", prerelease := true }] }

/-- Environment triggering the deleted-release-branch early return with the
`release-me` label present (used to exercise the label-settling actions). -/
def envDel : Env := { envC3 with
  releaseTarget := "main", isPullRequest := true, prNumber := some 7, issueNumber := 7,
  headRef := "release-main", remoteBranchExists := fun _ => false,
  prLabels := ["release-me"] }

/-- Counterexample manifest for the monotonicity invariant: `pkg/a` already
released at 2.0.0 everywhere. -/
def mC4 : Manifest :=
  [("pkg/a", { latest := "2.0.0", targets := [("main", "2.0.0")] })]

/-- A change whose `newVersion` is lower than the recorded `latest`
(as can arise when the manifest used for the update differs from the one the
version was computed from). -/
def cC4 : PackageChanges :=
  { name := Option.none, path := "pkg/a", currentVersion := "2.0.0", newVersion := "1.0.0",
    commits := [], changelog := "", releaseTarget := "main" }

/-- Well-ordered update data for the amended C4 theorem: bumping `p` from
1.0.0 to 1.1.0 on target `main`. -/
def mC4W : Manifest :=
  [("p", { latest := "1.0.0", targets := [("main", "1.0.0")] })]

/-- The corresponding change record. -/
def cC4W : PackageChanges :=
  { name := Option.none, path := "p", currentVersion := "1.0.0", newVersion := "1.1.0",
    commits := [], changelog := "", releaseTarget := "main" }
theorem maxBump_step (b h : VersionBump) :
    (if b = VersionBump.major ∨ (b = VersionBump.minor ∧ h ≠ VersionBump.major)
        ∨ (b = VersionBump.patch ∧ h = VersionBump.none)
     then b else h) = maxBump h b := by
  cases b <;> cases h <;> decide

theorem determineVersionBumpAux_closed (cs : List ConventionalCommit) :
    ∀ h : VersionBump,
      determineVersionBumpAux h cs =
        if cs.any (fun c => c.breaking) then VersionBump.major
        else (cs.map (fun c => bumpForType c.type)).foldl maxBump h := by
  induction cs with
  | nil => intro h; simp [determineVersionBumpAux]
  | cons c cs ih =>
    intro h
    by_cases hb : c.breaking
    · simp [determineVersionBumpAux, hb]
    · simp only [determineVersionBumpAux, hb, if_false, List.any_cons, Bool.false_or,
        List.map_cons, List.foldl_cons]
      rw [maxBump_step, ih]
      simp

theorem ord_le_maxBump (h b : VersionBump) : h.ord ≤ (maxBump h b).ord := by
  cases h <;> cases b <;> decide

theorem ord_le_determineVersionBumpAux (cs : List ConventionalCommit) :
    ∀ h : VersionBump, h.ord ≤ (determineVersionBumpAux h cs).ord := by
  induction cs with
  | nil => intro h; simp [determineVersionBumpAux]
  | cons c cs ih =>
    intro h
    by_cases hb : c.breaking
    · simp [determineVersionBumpAux, hb]
      cases h <;> decide
    · simp only [determineVersionBumpAux]
      rw [if_neg hb, maxBump_step]
      exact le_trans (ord_le_maxBump h (bumpForType c.type)) (ih _)

theorem determineVersionBumpAux_append (cs ds : List ConventionalCommit) :
    ∀ h : VersionBump,
      (determineVersionBumpAux h cs).ord ≤ (determineVersionBumpAux h (cs ++ ds)).ord := by
  induction cs with
  | nil => intro h; exact ord_le_determineVersionBumpAux ds h
  | cons c cs ih =>
    intro h
    by_cases hb : c.breaking
    · simp [determineVersionBumpAux, hb]
    · simp only [List.cons_append, determineVersionBumpAux]
      rw [if_neg hb, if_neg hb]
      exact ih _

/-- C1: `determineVersionBump` yields `major` as soon as some commit is
breaking, and otherwise the maximum — under none < patch < minor < major —
of the per-type bumps (feat→minor, fix/perf/refactor/revert→patch,
docs/style/test/chore/ci/build→none, the table `bumpForType`); consequently
its rank is monotone non-decreasing under appending commits. -/
theorem C1_bump_fold_max_monotone :
    (∀ commits : List ConventionalCommit,
       determineVersionBump commits =
         if commits.any (fun c => c.breaking) then VersionBump.major
         else (commits.map (fun c => bumpForType c.type)).foldl maxBump VersionBump.none)
    ∧ (∀ commits more : List ConventionalCommit,
       (determineVersionBump commits).ord ≤ (determineVersionBump (commits ++ more)).ord) := by
  constructor
  · intro commits
    exact determineVersionBumpAux_closed commits VersionBump.none
  · intro commits more
    exact determineVersionBumpAux_append commits more VersionBump.none
/-- C2: `parseConventionalCommit` parses `feat(core): add x` and `fix!: y`
into the expected structured records, and any message the grammar does not
match yields the fallback `chore` record carrying the entire raw input —
parsing is total and never rejects. -/
theorem C2_parse_structured_and_fallback :
    parseConventionalCommit ("feat(core): add x") =
      { type := "feat", scope := some ("core"), breaking := false,
        message := "add x", hash := "" }
    ∧ parseConventionalCommit ("fix!: y") =
      { type := "fix", scope := Option.none, breaking := true, message := "y", hash := "" }
    ∧ ∀ message : String, matchConv message = Option.none →
        parseConventionalCommit message =
          { type := "chore", scope := Option.none, breaking := false,
            message := message, hash := "" } := by
  refine ⟨rfl, rfl, ?_⟩
  intro message h
  simp [parseConventionalCommit, h]

theorem C2_parse_structured_and_fallback_witness :
    parseConventionalCommit ("free text") =
      { type := "chore", scope := Option.none, breaking := false,
        message := "free text", hash := "" } :=
  C2_parse_structured_and_fallback.2.2 "free text" rfl

/-- C5 counterexample: with `bump = none`, `isPrerelease = true`, `n = 2`,
re-applying `calculateNewVersion` to its own output `1.0.0-rc.2` yields
`1.0.0-rc.2-rc.2`, not the output unchanged — the prerelease suffix is not
idempotent under re-application. -/
theorem C5_counterexample_suffix_doubles :
    calculateNewVersion "1.0.0" VersionBump.none true (some 2) = Except.ok ("1.0.0-rc.2")
    ∧ calculateNewVersion "1.0.0-rc.2" VersionBump.none true (some 2) =
        Except.ok ("1.0.0-rc.2-rc.2")
    ∧ "1.0.0-rc.2-rc.2" ≠ "1.0.0-rc.2" := by
  exact ⟨rfl, rfl, by decide⟩

/-- C5 (amended): with `bump = none` and `isPrerelease = true`,
`calculateNewVersion` appends `-rc.<n||1>` to any parseable version string —
in particular to its own previous output — and the result is never equal to
its input, so re-application doubles the suffix instead of being idempotent. -/
theorem C5_amended_prerelease_appends :
    ∀ (v : String) (n : Option Nat), (parseSemver v).isSome = true →
      calculateNewVersion v VersionBump.none true n =
        Except.ok (v ++ "-rc." ++ toString (rcNumOrOne n))
      ∧ v ++ "-rc." ++ toString (rcNumOrOne n) ≠ v := by
  intro v n hv
  constructor
  · match hp : parseSemver v with
    | Option.none => rw [hp] at hv; cases hv
    | some s => simp [calculateNewVersion, hp]
  · intro h
    have hlen := congrArg String.length h
    have h4 : ("-rc." : String).length = 4 := rfl
    rw [String.length_append, String.length_append, h4] at hlen
    omega

theorem C5_amended_prerelease_appends_witness :
    calculateNewVersion "1.2.3" VersionBump.none true (some 5) = Except.ok ("1.2.3-rc.5")
    ∧ "1.2.3-rc.5" ≠ "1.2.3" :=
  ⟨(C5_amended_prerelease_appends "1.2.3" (some 5) rfl).1,
   (C5_amended_prerelease_appends "1.2.3" (some 5) rfl).2⟩
/-- C6 counterexample: `calculateNewVersion` is not total on arbitrary
current-version strings — on `not-a-version` it throws
`Invalid version: not-a-version` (modelled as `Except.error`), so "the pure
classification functions never fail for every input" is false as stated. -/
theorem C6_counterexample_invalid_version_throws :
    calculateNewVersion "not-a-version" VersionBump.patch false Option.none =
      Except.error ("Invalid version: not-a-version") := rfl

/-- C6 (amended): `parseConventionalCommit`, `determineVersionBump` and
`generateChangelog` are total functions of their inputs (they are plain
terminating definitions here); `calculateNewVersion` succeeds exactly on the
version strings `semver.parse` accepts and throws `Invalid version: <v>` on
all others. -/
theorem C6_amended_calc_total_iff_parseable :
    ∀ (v : String) (b : VersionBump) (p : Bool) (n : Option Nat),
      ((parseSemver v).isSome = true → ∃ s, calculateNewVersion v b p n = Except.ok s)
      ∧ ((parseSemver v).isSome = false →
          calculateNewVersion v b p n = Except.error ("Invalid version: " ++ v)) := by
  intro v b p n
  constructor
  · intro hv
    cases hp : parseSemver v with
    | none => rw [hp] at hv; cases hv
    | some s => exact ⟨_, by unfold calculateNewVersion; rw [hp]⟩
  · intro hv
    cases hp : parseSemver v with
    | some s => rw [hp] at hv; cases hv
    | none =>
      unfold calculateNewVersion
      rw [hp]

theorem C6_amended_calc_total_iff_parseable_witness :
    (∃ s, calculateNewVersion "1.2.3" VersionBump.major false Option.none = Except.ok s)
    ∧ calculateNewVersion "xyz" VersionBump.major false Option.none =
        Except.error ("Invalid version: xyz") :=
  ⟨(C6_amended_calc_total_iff_parseable "1.2.3" VersionBump.major false Option.none).1 rfl,
   (C6_amended_calc_total_iff_parseable "xyz" VersionBump.major false Option.none).2 rfl⟩

theorem sectionOf_eq_features (t : String) :
    sectionOf t = "🚀 Features" ↔ t = "feat" := by
  constructor
  · intro h
    by_contra hne
    unfold sectionOf at h
    rw [if_neg (by simp [hne])] at h
    split_ifs at h <;> simp_all
  · intro h
    subst h
    rfl

/-- C7: the changelog contains the Features section iff some commit has type
`feat` (`usedTitles` is exactly the list of section headers
`generateChangelog` renders, in order), and every breaking commit is
rendered with the fixed `**BREAKING CHANGE:**` marker no matter which
section it is bucketed into. -/
theorem C7_features_iff_and_breaking_marker :
    ∀ commits : List ConventionalCommit,
      (("🚀 Features" ∈ usedTitles commits) ↔ ∃ c ∈ commits, c.type = "feat")
      ∧ ∀ c ∈ commits, c.breaking = true →
          renderCommit c = "- **BREAKING CHANGE:** " ++ c.message := by
  intro commits
  constructor
  · rw [usedTitles, List.mem_filter]
    constructor
    · rintro ⟨-, hne⟩
      have hne' : commits.filter (fun c => sectionOf c.type == "🚀 Features") ≠ [] := by
        intro h
        rw [sectionItems, h] at hne
        simp at hne
      match hf : commits.filter (fun c => sectionOf c.type == "🚀 Features") with
      | [] => exact absurd hf hne'
      | c :: _ =>
        have hc : c ∈ commits.filter (fun c => sectionOf c.type == "🚀 Features") := by
          rw [hf]; exact List.mem_cons_self _ _
        rw [List.mem_filter] at hc
        exact ⟨c, hc.1, (sectionOf_eq_features c.type).mp (by simpa using hc.2)⟩
    · rintro ⟨c, hc, hfeat⟩
      refine ⟨by decide, ?_⟩
      have hmem : c ∈ commits.filter (fun c => sectionOf c.type == "🚀 Features") :=
        List.mem_filter.mpr ⟨hc, by simp [(sectionOf_eq_features _).mpr hfeat]⟩
      have hnn : sectionItems commits "🚀 Features" ≠ [] := by
        rw [sectionItems]
        intro habs
        rw [List.map_eq_nil_iff] at habs
        rw [habs] at hmem
        cases hmem
      simpa [Bool.not_eq_true', ← Bool.not_eq_true] using
        fun h => hnn (List.isEmpty_iff.mp h)
  · intro c _ hbreak
    simp only [renderCommit, hbreak, if_true]
    rw [← String.append_assoc]
    rfl

theorem C7_features_iff_and_breaking_marker_witness :
    ("🚀 Features" ∈ usedTitles
      [{ type := "feat", scope := Option.none, breaking := true,
         message := "boom", hash := "" }])
    ∧ renderCommit
        { type := "feat", scope := Option.none, breaking := true,
          message := "boom", hash := "" } = "- **BREAKING CHANGE:** boom" :=
  ⟨(C7_features_iff_and_breaking_marker _).1.mpr
     ⟨_, List.mem_singleton_self _, rfl⟩,
   (C7_features_iff_and_breaking_marker _).2 _ (List.mem_singleton_self _) rfl⟩
theorem mem_commentActs {env : Env} {body : String} {a : GwAction}
    (h : a ∈ commentActs env body) : a = GwAction.comment body := by
  unfold commentActs at h
  split at h
  · simpa using h
  · cases h

theorem runTail_prerelease_actions (env : Env) (labels : List String)
    (changes : List PackageChanges) (outs : List (String × String)) :
    ∀ a ∈ (runTail env labels true changes outs).actions,
      a.isReleasePR = false ∧ a.isVersionBumpPR = false ∧ a.cutFlag ≠ some true := by
  intro a ha
  unfold runTail at ha
  rw [if_pos rfl] at ha
  split at ha
  next specs heq =>
    simp only [List.mem_append, List.mem_singleton] at ha
    rcases ha with hc | rfl
    · obtain rfl := mem_commentActs hc
      exact ⟨rfl, rfl, by simp [GwAction.cutFlag]⟩
    · exact ⟨rfl, rfl, by simp [GwAction.cutFlag]⟩
  next e heq =>
    obtain rfl := mem_commentActs ha
    exact ⟨rfl, rfl, by simp [GwAction.cutFlag]⟩

theorem runTail_actions_shape (env : Env) (labels : List String) (isPre : Bool)
    (changes : List PackageChanges) (outs : List (String × String)) :
    ∀ a ∈ (runTail env labels isPre changes outs).actions,
      a.isVersionBumpPR = false ∧ a.cutFlag ≠ some true := by
  intro a ha
  unfold runTail at ha
  split at ha
  · split at ha
    next specs heq =>
      simp only [List.mem_append, List.mem_singleton] at ha
      rcases ha with hc | rfl
      · obtain rfl := mem_commentActs hc
        exact ⟨rfl, by simp [GwAction.cutFlag]⟩
      · exact ⟨rfl, by simp [GwAction.cutFlag]⟩
    next e heq =>
      obtain rfl := mem_commentActs ha
      exact ⟨rfl, by simp [GwAction.cutFlag]⟩
  · split at ha
    next n heq =>
      split at ha
      next specs heq2 =>
        simp only [List.mem_cons, List.mem_singleton, List.not_mem_nil, or_false] at ha
        rcases ha with rfl | rfl
        · exact ⟨rfl, by simp [GwAction.cutFlag]⟩
        · exact ⟨rfl, by simp [GwAction.cutFlag]⟩
      next e heq2 => cases ha
    next heq =>
      split at ha
      · split at ha
        next specs heq2 =>
          simp only [List.mem_singleton] at ha
          subst ha
          exact ⟨rfl, by simp [GwAction.cutFlag]⟩
        next e heq2 => cases ha
      · simp only [List.mem_singleton] at ha
        subst ha
        exact ⟨rfl, by simp [GwAction.cutFlag]⟩

theorem run_actions_shape (env : Env) :
    ∀ a ∈ (run env).actions, a.isVersionBumpPR = false ∧ a.cutFlag ≠ some true := by
  intro a ha
  simp only [run] at ha
  split at ha
  · cases ha
  · split at ha
    · split at ha
      · simp only [List.mem_cons, List.mem_singleton, List.not_mem_nil, or_false] at ha
        rcases ha with rfl | rfl
        · exact ⟨rfl, by simp [GwAction.cutFlag]⟩
        · exact ⟨rfl, by simp [GwAction.cutFlag]⟩
      · cases ha
    · split at ha
      · cases ha
      · split at ha
        · obtain rfl := mem_commentActs ha
          exact ⟨rfl, by simp [GwAction.cutFlag]⟩
        · split at ha
          · cases ha
          · split at ha
            · cases ha
            · split at ha
              · cases ha
              · exact runTail_actions_shape _ _ _ _ _ a ha
/-- C3 counterexample: in a concrete invocation whose manifest records
target `canary` at 1.0.0 strictly below `latest` 2.0.0 for `pkg/a` and whose
commit stream is empty, `run` stops with nothing to do — it issues no
gateway write at all, and in particular does not open a version-bump pull
request. -/
theorem C3_counterexample_run_stops :
    manifestFind envC3.manifest "pkg/a" =
      some { latest := "2.0.0", targets := [("canary", "1.0.0")] }
    ∧ tvGet { latest := "2.0.0", targets := [("canary", "1.0.0")] } "canary" = some ("1.0.0")
    ∧ verLtB "1.0.0" "2.0.0" = true
    ∧ getAllCommitsSinceLastRelease envC3.rawCommits = []
    ∧ run envC3 =
        { outputs := [("prerelease", "false")], actions := [], failed := Option.none } :=
  ⟨rfl, rfl, rfl, rfl, rfl⟩

/-- C3 (amended): when there are no bump-relevant commits, `run` performs no
gateway write (it returns early instead of opening a catch-up PR); the
gateway's `createVersionBumpPullRequest` would indeed commit a tree touching
only the manifest file, but no `run` path ever issues a version-bump PR. -/
theorem C3_amended_no_catchup_wiring :
    (∀ env : Env,
       (env.releaseTarget == "latest") = false →
       isDeletedReleaseBranch env = false →
       (runLabels env).contains "released" = false →
       ((runLabels env).contains env.prereleaseLabel && !env.createPreReleases) = false →
       getAllCommitsSinceLastRelease env.rawCommits = [] →
       (run env).actions = [])
    ∧ (∀ (m : Manifest) (changes : List PackageChanges) (manifestFile : String),
        (createVersionBumpPullRequest m changes manifestFile).treePaths = [manifestFile])
    ∧ (∀ (env : Env) (a : GwAction), a ∈ (run env).actions → a.isVersionBumpPR = false) := by
  refine ⟨?_, fun m changes f => rfl, fun env a ha => (run_actions_shape env a ha).1⟩
  intro env h1 h2 h3 h4 h5
  simp only [run, h1, h2, h3, h4, h5, Bool.false_eq_true, if_false, List.isEmpty_nil,
    if_true]
  split <;> rfl

/-- Witness for the amended C3 theorem at concrete inputs. -/
theorem C3_amended_no_catchup_wiring_witness :
    (run envC3).actions = []
    ∧ (createVersionBumpPullRequest envC3.manifest
         (getReleaseTargetToLatestChanges envC3.manifest "canary")
         ".release-manifest.json").treePaths = [".release-manifest.json"]
    ∧ (GwAction.addLabel "released" 7).isVersionBumpPR = false :=
  ⟨C3_amended_no_catchup_wiring.1 envC3 rfl rfl rfl rfl rfl,
   C3_amended_no_catchup_wiring.2.1 _ _ _,
   C3_amended_no_catchup_wiring.2.2 envDel (GwAction.addLabel "released" 7) (by decide)⟩

/-- C8 counterexample: in the reference scenario (manifest `pkg/a` at 1.0.0,
one `feat(a): x` commit), the release PR title `run` produces is
`chore: release undefined@1.1.0` — the single-package title interpolates
`change.name`, which the orchestrator's change records do not set — not
`chore: release pkg/a@1.1.0`; and even with `name` populated the way the
gateway's own constructors populate it (`basename(path)`), the title is
`chore: release a@1.1.0`, still not derived from the path. -/
theorem C8_counterexample_title_not_path :
    (run envC8).actions =
      [GwAction.releasePR ("chore: release undefined@1.1.0")
        [{ name := Option.none, path := "pkg/a", currentVersion := "1.0.0",
           newVersion := "1.1.0",
           commits := [{ type := "feat", scope := some ("a"), breaking := false,
                         message := "x", hash := "" }],
           changelog := "### 🚀 Features\n\n- x", releaseTarget := "main" }]]
    ∧ "chore: release undefined@1.1.0" ≠ "chore: release pkg/a@1.1.0"
    ∧ generateReleasePRTitle
        [{ name := some ("a"), path := "pkg/a", currentVersion := "1.0.0",
           newVersion := "1.1.0", commits := [], changelog := "",
           releaseTarget := "main" }] = "chore: release a@1.1.0"
    ∧ "chore: release a@1.1.0" ≠ "chore: release pkg/a@1.1.0" :=
  ⟨rfl, by decide, rfl, by decide⟩

/-- C8 (amended): the release-PR title is deterministic in the change set,
but a single non-root change is titled from the `name` field
(`chore: release <name>@<version>`, where `name` is `basename(path)` when
the gateway sets it and JS `undefined` for the records `run` builds), a
single root change from the version alone, and multiple changes from the
first change's release target. -/
theorem C8_amended_title_from_name :
    (∀ c : PackageChanges, c.path ≠ "." →
       generateReleasePRTitle [c] =
         "chore: release " ++ jsUndefStr c.name ++ "@" ++ c.newVersion)
    ∧ (∀ c : PackageChanges, c.path = "." →
       generateReleasePRTitle [c] = "chore: release " ++ c.newVersion)
    ∧ (∀ (c c' : PackageChanges) (rest : List PackageChanges),
       generateReleasePRTitle (c :: c' :: rest) =
         "chore: release " ++ c.releaseTarget) := by
  refine ⟨?_, ?_, fun c c' rest => rfl⟩
  · intro c h
    simp [generateReleasePRTitle, h]
  · intro c h
    simp [generateReleasePRTitle, h]

/-- Witness for the amended C8 theorem at concrete inputs. -/
theorem C8_amended_title_from_name_witness :
    generateReleasePRTitle
      [{ name := some ("core"), path := "packages/core", currentVersion := "1.0.0",
         newVersion := "1.1.0", commits := [], changelog := "",
         releaseTarget := "main" }] = "chore: release core@1.1.0"
    ∧ generateReleasePRTitle
        [{ name := Option.none, path := ".", currentVersion := "1.0.0",
           newVersion := "2.0.0", commits := [], changelog := "",
           releaseTarget := "main" }] = "chore: release 2.0.0" :=
  ⟨C8_amended_title_from_name.1 _ (by decide),
   C8_amended_title_from_name.2.1 _ rfl⟩
theorem hasDashV_cons_dv (c : Char) (s : List Char) :
    hasDashV (c :: '-' :: 'v' :: s) = true := by
  simp [hasDashV]

theorem hasDashV_tail {c : Char} {tail : List Char}
    (h : hasDashV (c :: tail) = false) : hasDashV tail = false := by
  match tail with
  | [] => rfl
  | b :: rest =>
    rw [hasDashV] at h
    simp only [Bool.or_eq_false_iff] at h
    exact h.2

theorem rcPatHere_dv_some {ps : List PatChar} {s rest : List Char}
    (h : rcPatHere (PatChar.dot :: PatChar.lit '-' :: PatChar.lit 'v' :: ps) s = some rest) :
    hasDashV s = true := by
  match s with
  | [] => simp [rcPatHere] at h
  | c :: s1 =>
    rw [rcPatHere] at h
    split at h
    · cases h
    · match s1 with
      | [] => simp [rcPatHere] at h
      | c2 :: s2 =>
        rw [rcPatHere] at h
        split at h
        case isTrue hc2 =>
          match s2 with
          | [] => simp [rcPatHere] at h
          | c3 :: s3 =>
            rw [rcPatHere] at h
            split at h
            case isTrue hc3 =>
              subst hc2
              subst hc3
              exact hasDashV_cons_dv c s3
            case isFalse => cases h
        case isFalse => cases h

theorem rcFindMatch_dv_none {ps : List PatChar} :
    ∀ s : List Char, hasDashV s = false →
      rcFindMatch (PatChar.dot :: PatChar.lit '-' :: PatChar.lit 'v' :: ps) s =
        Option.none := by
  intro s
  induction s with
  | nil => intro _; rfl
  | cons c tail ih =>
    intro h
    rw [rcFindMatch]
    have hmh : rcMatchHere (PatChar.dot :: PatChar.lit '-' :: PatChar.lit 'v' :: ps)
        (c :: tail) = Option.none := by
      rw [rcMatchHere]
      match hph : rcPatHere (PatChar.dot :: PatChar.lit '-' :: PatChar.lit 'v' :: ps)
          (c :: tail) with
      | Option.none => rfl
      | some rest =>
        rw [rcPatHere_dv_some hph] at h
        cases h
    rw [hmh]
    exact ih (hasDashV_tail h)

/-- C9 counterexample: with root package `.`, base version 1.1.0 and an
existing prerelease `v1.1.0-rc.1`, the highest used ordinal is 1, yet
`getLatestRcVersion` returns 1 (its lookup pattern `.-v1.1.0-rc\.(\d+)`
never matches the root tags `v<version>-rc.<n>` that `createRelease`
creates), so `run` assigns the already-used `-rc.1` instead of the claimed
next unused `-rc.2`. -/
theorem C9_counterexample_ordinal_reused :
    envC9.releases = [{ tagName := "v1.1.0-rc.1", prerelease := true }]
    ∧ getLatestRcVersion envC9.releases "." "1.1.0" = 1
    ∧ (run envC9).outputs = [("prerelease", "true"), ("version", "1.1.0-rc.1")]
    ∧ "1.1.0-rc.1" ≠ "1.1.0-rc.2" :=
  ⟨rfl, rfl, rfl, by decide⟩

/-- C9 (amended): on a prerelease-labeled PR with prereleases enabled the
prerelease is cut directly (the prerelease branch of `run`'s tail emits no
release PR and no version-bump PR), and the ordinal is 1 when no release
matches; but for the root package `.` the ordinal is *always* 1 whenever no
release tag contains the substring "-v" — in particular for every root tag
`v<major>.<minor>.<patch>-rc.<n>` that `createRelease` itself creates — so
the "next unused ordinal" claim holds only for packages whose path equals
its basename. -/
theorem C9_amended_root_ordinal_always_one :
    (∀ (base : String) (rels : List Release),
       (∀ r ∈ rels, hasDashV r.tagName.data = false) →
       getLatestRcVersion rels "." base = 1)
    ∧ (∀ path base : String, getLatestRcVersion [] path base = 1)
    ∧ (∀ (env : Env) (labels : List String) (changes : List PackageChanges)
         (outs : List (String × String)) (a : GwAction),
       a ∈ (runTail env labels true changes outs).actions →
       a.isReleasePR = false ∧ a.isVersionBumpPR = false) := by
  refine ⟨?_, fun path base => rfl,
    fun env labels changes outs a ha =>
      ⟨(runTail_prerelease_actions env labels changes outs a ha).1,
       (runTail_prerelease_actions env labels changes outs a ha).2.1⟩⟩
  intro base rels hno
  have hfm : rels.filterMap
      (fun r => rcFindMatch (rcPatOf "." ++ litsOf "-v" ++ rcPatOf base
        ++ litsOf "-rc" ++ [PatChar.lit '.']) r.tagName.data) = [] := by
    rw [List.filterMap_eq_nil_iff]
    intro r hr
    exact rcFindMatch_dv_none r.tagName.data (hno r hr)
  simp only [getLatestRcVersion]
  rw [hfm]
  rfl

/-- Witness for the amended C9 theorem at concrete inputs. -/
theorem C9_amended_root_ordinal_always_one_witness :
    getLatestRcVersion [{ tagName := "v1.1.0-rc.1", prerelease := true }] "." "1.1.0" = 1
    ∧ getLatestRcVersion [] "pkg/a" "1.0.0" = 1
    ∧ (GwAction.cutRelease
        [{ tagName := "a-v1.0.0", releaseName := "a v1.0.0", body := "",
           prerelease := false, version := "1.0.0" }] false).isReleasePR = false :=
  ⟨C9_amended_root_ordinal_always_one.1 "1.1.0" _ (by decide),
   C9_amended_root_ordinal_always_one.2.1 "pkg/a" "1.0.0",
   (C9_amended_root_ordinal_always_one.2.2 envC3 []
     [{ name := Option.none, path := "pkg/a", currentVersion := "1.0.0",
        newVersion := "9.9.9", commits := [], changelog := "",
        releaseTarget := "canary" }] []
     (GwAction.cutRelease
       [{ tagName := "a-v1.0.0", releaseName := "a v1.0.0", body := "",
          prerelease := false, version := "1.0.0" }] false) (by decide)).1⟩
/-- C10 counterexample: on the prerelease path `run` computes
`newVersion = 1.1.0-rc.1` but calls `createRelease(changes)` without the
prerelease flag, which therefore defaults to `false` — so even the
prerelease cut derives its tag and release from the manifest version
(`v1.0.0`, published with `prerelease: false`), not from the `newVersion`
computed in the run; "only prerelease cuts use the newVersion" is false. -/
theorem C10_counterexample_prerelease_cut_uses_manifest :
    (run envC9).outputs = [("prerelease", "true"), ("version", "1.1.0-rc.1")]
    ∧ (run envC9).actions =
        [GwAction.comment
          ("ℹ️ Created prereleases for the following packages:\n\n- 1.1.0-rc.1 for ."),
         GwAction.cutRelease
           [{ tagName := "v1.0.0", releaseName := "v1.0.0",
              body := "### 🚀 Features\n\n- x", prerelease := false,
              version := "1.0.0" }] false]
    ∧ "1.0.0" ≠ "1.1.0-rc.1" :=
  ⟨rfl, rfl, by decide⟩

/-- C10 (amended): inside `createRelease` the version selection is exactly
`prerelease ? change.newVersion : manifest[path][releaseTarget]` — with the
flag unset each tag/release is built from the manifest version read from the
default branch, with it set from the change's `newVersion` — but `run` never
passes the flag, so every cut it performs (the final-release paths *and* the
prerelease path) carries `prerelease = false` and reads the manifest. -/
theorem C10_amended_version_selection :
    (∀ (m : Manifest) (c : PackageChanges) (tv : TargetVersions),
       manifestFind m c.path = some tv →
       specFor m false c = Except.ok
         { tagName := if c.path == "." then "v" ++ jsUndefStr (tvGet tv c.releaseTarget)
                      else basename c.path ++ "-v" ++ jsUndefStr (tvGet tv c.releaseTarget),
           releaseName := if c.path == "." then "v" ++ jsUndefStr (tvGet tv c.releaseTarget)
                          else basename c.path ++ " v" ++ jsUndefStr (tvGet tv c.releaseTarget),
           body := c.changelog, prerelease := false,
           version := jsUndefStr (tvGet tv c.releaseTarget) })
    ∧ (∀ (m : Manifest) (c : PackageChanges),
       specFor m true c = Except.ok
         { tagName := if c.path == "." then "v" ++ c.newVersion
                      else basename c.path ++ "-v" ++ c.newVersion,
           releaseName := if c.path == "." then "v" ++ c.newVersion
                          else basename c.path ++ " v" ++ c.newVersion,
           body := c.changelog, prerelease := true, version := c.newVersion })
    ∧ (∀ (env : Env) (a : GwAction), a ∈ (run env).actions → a.cutFlag ≠ some true) := by
  refine ⟨?_, fun m c => rfl, fun env a ha => (run_actions_shape env a ha).2⟩
  intro m c tv h
  simp [specFor, h]

/-- Witness for the amended C10 theorem at concrete inputs. -/
theorem C10_amended_version_selection_witness :
    specFor mC4 false cC4 = Except.ok
      { tagName := "a-v2.0.0", releaseName := "a v2.0.0", body := "",
        prerelease := false, version := "2.0.0" }
    ∧ (GwAction.cutRelease
        [{ tagName := "v1.0.0", releaseName := "v1.0.0",
           body := "### 🚀 Features\n\n- x", prerelease := false,
           version := "1.0.0" }] false).cutFlag ≠ some true := by
  constructor
  · have h := C10_amended_version_selection.1 mC4 cC4
      { latest := "2.0.0", targets := [("main", "2.0.0")] } rfl
    simpa using h
  · exact C10_amended_version_selection.2.2 envC9
      (GwAction.cutRelease
        [{ tagName := "v1.0.0", releaseName := "v1.0.0",
           body := "### 🚀 Features\n\n- x", prerelease := false,
           version := "1.0.0" }] false) (by decide)
theorem natCmp_self (n : Nat) : natCmp n n = Ordering.eq := by
  simp [natCmp]

theorem strCmpL_self : ∀ l : List Char, strCmpL l l = Ordering.eq
  | [] => rfl
  | a :: as => by
    rw [strCmpL]
    rw [chCmp, natCmp_self, strCmpL_self as]
    rfl

theorem identCmp_self : ∀ i : Sum Nat String, identCmp i i = Ordering.eq
  | .inl n => natCmp_self n
  | .inr s => strCmpL_self s.data

theorem preLex_self : ∀ l : List (Sum Nat String), preLex l l = Ordering.eq
  | [] => rfl
  | a :: as => by
    rw [preLex, identCmp_self, preLex_self as]
    rfl

theorem cmpPre_self : ∀ l : List (Sum Nat String), cmpPre l l = Ordering.eq
  | [] => rfl
  | a :: as => preLex_self (a :: as)

theorem cmpSemver_self (s : Semver) : cmpSemver s s = Ordering.eq := by
  rw [cmpSemver, natCmp_self, natCmp_self, natCmp_self, cmpPre_self]
  rfl

theorem verLeB_refl {v : String} (h : (parseSemver v).isSome = true) :
    verLeB v v = true := by
  cases hp : parseSemver v with
  | none => rw [hp] at h; cases h
  | some s =>
    rw [verLeB, hp]
    simp [cmpSemver_self s]

theorem verLeB_parse_left {a b : String} (h : verLeB a b = true) :
    (parseSemver a).isSome = true := by
  cases hp : parseSemver a with
  | none => rw [verLeB, hp] at h; cases h
  | some s => rfl

theorem lookup_mem {l : List (String × String)} {k v : String}
    (h : l.lookup k = some v) : (k, v) ∈ l := by
  induction l with
  | nil => cases h
  | cons e rest ih =>
    rw [List.lookup] at h
    split at h
    next heq =>
      cases h
      have : k = e.1 := by simpa using heq
      subst this
      exact List.mem_cons_self _ _
    next => exact List.mem_cons_of_mem _ (ih h)

theorem setAssoc_mem {k v : String} :
    ∀ {l : List (String × String)}, ∀ p ∈ setAssoc l k v, p = (k, v) ∨ p ∈ l := by
  intro l
  induction l with
  | nil =>
    intro p hp
    rw [setAssoc] at hp
    simp at hp
    exact Or.inl hp
  | cons e rest ih =>
    intro p hp
    rw [setAssoc] at hp
    split at hp
    · rcases List.mem_cons.mp hp with rfl | hp2
      · exact Or.inl rfl
      · exact Or.inr (List.mem_cons_of_mem _ hp2)
    · rcases List.mem_cons.mp hp with rfl | hp2
      · exact Or.inr (List.mem_cons_self _ _)
      · rcases ih p hp2 with h | h
        · exact Or.inl h
        · exact Or.inr (List.mem_cons_of_mem _ h)

theorem lookup_setAssoc_self (k v : String) :
    ∀ l : List (String × String), (setAssoc l k v).lookup k = some v := by
  intro l
  induction l with
  | nil => simp [setAssoc, List.lookup]
  | cons e rest ih =>
    obtain ⟨k1, v1⟩ := e
    rw [setAssoc]
    by_cases hk : k1 = k
    · rw [if_pos hk]
      simp [List.lookup]
    · rw [if_neg hk]
      have hb : (k == k1) = false := by
        simp only [beq_eq_false_iff_ne, ne_eq]
        intro h
        exact hk h.symm
      simp only [List.lookup, hb]
      exact ih

theorem lookup_setAssoc_ne {k k' v : String} (hne : k' ≠ k) :
    ∀ l : List (String × String), (setAssoc l k v).lookup k' = l.lookup k' := by
  intro l
  have hb : (k' == k) = false := by simpa using hne
  induction l with
  | nil => simp [setAssoc, List.lookup, hb]
  | cons e rest ih =>
    obtain ⟨k1, v1⟩ := e
    rw [setAssoc]
    by_cases hk : k1 = k
    · subst hk
      simp only [if_pos rfl, List.lookup, hb]
    · rw [if_neg hk]
      simp only [List.lookup]
      cases hk2 : k' == k1 with
      | true => rfl
      | false => exact ih

theorem manifestFind_map_update {m : Manifest} {p : String}
    {g : TargetVersions → TargetVersions} {tv : TargetVersions}
    (h : manifestFind m p = some tv) :
    manifestFind (m.map (fun e => if e.1 == p then (e.1, g e.2) else e)) p =
      some (g tv) := by
  induction m with
  | nil => cases h
  | cons e rest ih =>
    rw [manifestFind, List.find?] at h
    rw [List.map_cons, manifestFind]
    cases hb : e.1 == p with
    | true =>
      rw [hb] at h
      cases h
      rw [if_pos rfl, List.find?_cons_of_pos _ (by simpa using hb)]
      rfl
    | false =>
      rw [hb] at h
      rw [if_neg (by decide), List.find?_cons_of_neg _ (by simpa using hb)]
      exact ih h

theorem manifestFind_map_ne {m : Manifest} {p q : String}
    {g : TargetVersions → TargetVersions} (h : q ≠ p) :
    manifestFind (m.map (fun e => if e.1 == p then (e.1, g e.2) else e)) q =
      manifestFind m q := by
  induction m with
  | nil => rfl
  | cons e rest ih =>
    rw [List.map_cons, manifestFind, manifestFind]
    cases hb : e.1 == p with
    | true =>
      have hq : (e.1 == q) = false := by
        simp only [beq_iff_eq] at hb
        have hpq : p ≠ q := fun hh => h hh.symm
        simp [hb, hpq]
      rw [if_pos rfl]
      rw [List.find?_cons_of_neg _ (by simpa using hq),
        List.find?_cons_of_neg _ (by simpa using hq)]
      exact ih
    | false =>
      rw [if_neg (by decide)]
      cases hq : e.1 == q with
      | true =>
        rw [List.find?_cons_of_pos _ (by simpa using hq),
          List.find?_cons_of_pos _ (by simpa using hq)]
      | false =>
        rw [List.find?_cons_of_neg _ (by simpa using hq),
          List.find?_cons_of_neg _ (by simpa using hq)]
        exact ih

theorem manifestFind_append_right {m : Manifest} {p : String} {tv : TargetVersions}
    (h : manifestFind m p = Option.none) :
    manifestFind (m ++ [(p, tv)]) p = some tv := by
  induction m with
  | nil => simp [manifestFind, List.find?]
  | cons e rest ih =>
    rw [manifestFind, List.find?] at h
    rw [List.cons_append, manifestFind]
    cases hb : e.1 == p with
    | true => rw [hb] at h; cases h
    | false =>
      rw [hb] at h
      rw [List.find?_cons_of_neg _ (by simpa using hb)]
      exact ih h

theorem manifestFind_append_ne {m : Manifest} {p q : String} {tv : TargetVersions}
    (h : q ≠ p) :
    manifestFind (m ++ [(p, tv)]) q = manifestFind m q := by
  induction m with
  | nil =>
    simp only [List.nil_append, manifestFind, List.find?]
    have hpq : p ≠ q := fun hh => h hh.symm
    have hb : (p == q) = false := by simpa using hpq
    rw [hb]
  | cons e rest ih =>
    rw [List.cons_append, manifestFind, manifestFind]
    cases hq : e.1 == q with
    | true =>
      rw [List.find?_cons_of_pos _ (by simpa using hq),
        List.find?_cons_of_pos _ (by simpa using hq)]
    | false =>
      rw [List.find?_cons_of_neg _ (by simpa using hq),
        List.find?_cons_of_neg _ (by simpa using hq)]
      exact ih

theorem manifestFind_of_mem_nodup {m : Manifest} {e : String × TargetVersions}
    (hkeys : (m.map Prod.fst).Nodup) (he : e ∈ m) :
    manifestFind m e.1 = some e.2 := by
  induction m with
  | nil => cases he
  | cons e0 rest ih =>
    rw [List.map_cons, List.nodup_cons] at hkeys
    rcases List.mem_cons.mp he with rfl | hmem
    · rw [manifestFind, List.find?_cons_of_pos _ (by simp)]
      rfl
    · have hne : e0.1 ≠ e.1 := by
        intro hh
        exact hkeys.1 (hh ▸ List.mem_map_of_mem Prod.fst hmem)
      rw [manifestFind, List.find?_cons_of_neg _ (by simpa using hne)]
      exact ih hkeys.2 hmem

theorem manifestFind_some_mem {m : Manifest} {p : String} {tv : TargetVersions}
    (h : manifestFind m p = some tv) : ∃ e ∈ m, e.2 = tv := by
  rw [manifestFind] at h
  rw [Option.map_eq_some'] at h
  obtain ⟨e, he, htv⟩ := h
  exact ⟨e, List.mem_of_find?_eq_some he, htv⟩

/-- C4 counterexample: `updateManifest` does not unconditionally preserve
the invariant — applied to a manifest satisfying it with a change whose
`newVersion` (1.0.0) is below the recorded `latest` (2.0.0), it rewrites
`latest` to 1.0.0, i.e. `latest` moves backwards. -/
theorem C4_counterexample_latest_moves_backward :
    InvManifest mC4
    ∧ updateManifest mC4 [cC4] "main" =
        [("pkg/a", { latest := "1.0.0", targets := [("main", "1.0.0")] })]
    ∧ verLeB "2.0.0" "1.0.0" = false := by
  refine ⟨?_, rfl, rfl⟩
  unfold InvManifest TvOk
  decide

/-- C4 (amended): `updateManifest` (one change at a time; a change list is
its left fold) preserves the invariant — every target ≤ `latest`, `latest`
and each target moving only forward, `latest` ending at the newly assigned
version — *provided* the change's `newVersion` dominates every version
currently recorded for that package, which is how the orchestrator computes
it (a bump of the package's `latest`); without that precondition
preservation fails. -/
theorem C4_amended_update_preserves_given_domination :
    ∀ (m : Manifest) (c : PackageChanges) (t : String),
      InvManifest m →
      (m.map Prod.fst).Nodup →
      (parseSemver c.newVersion).isSome = true →
      (manifestFind m c.path).all
        (fun tv => verLeB tv.latest c.newVersion
          && tv.targets.all (fun p => verLeB p.2 c.newVersion)) = true →
      InvManifest (updateManifest m [c] t)
      ∧ (∀ tv, manifestFind m c.path = some tv →
          manifestFind (updateManifest m [c] t) c.path =
            some (tvUpdate tv t c.newVersion)
          ∧ (tvUpdate tv t c.newVersion).latest = c.newVersion
          ∧ verLeB tv.latest (tvUpdate tv t c.newVersion).latest = true)
      ∧ (∀ q, q ≠ c.path → manifestFind (updateManifest m [c] t) q = manifestFind m q)
      ∧ (∀ tv k v v', manifestFind m c.path = some tv → tvGet tv k = some v →
          tvGet (tvUpdate tv t c.newVersion) k = some v' → verLeB v v' = true) := by
  intro m c t hInv hkeys hnew hdom
  have hsing : updateManifest m [c] t = applyChange t m c := rfl
  have hdom' : ∀ tv, manifestFind m c.path = some tv →
      verLeB tv.latest c.newVersion = true
      ∧ ∀ p ∈ tv.targets, verLeB p.2 c.newVersion = true := by
    intro tv htv
    rw [htv] at hdom
    simp only [Option.all, Bool.and_eq_true, List.all_eq_true] at hdom
    exact hdom
  cases hfind : manifestFind m c.path with
  | none =>
    have happ : applyChange t m c =
        m ++ [(c.path,
          { latest := c.newVersion,
            targets := if t == "latest" then [] else [(t, c.newVersion)] })] := by
      rw [applyChange, hfind]
    refine ⟨?_, ?_, ?_, ?_⟩
    · rw [hsing, happ]
      intro e he
      rcases List.mem_append.mp he with hm | hs
      · exact hInv e hm
      · have he2 := List.mem_singleton.mp hs
        subst he2
        refine ⟨hnew, ?_⟩
        intro p hp
        cases ht : t == "latest" with
        | true => rw [ht] at hp; cases hp
        | false =>
          rw [ht] at hp
          simp only [Bool.false_eq_true, if_false] at hp
          have := List.mem_singleton.mp hp
          subst this
          exact verLeB_refl hnew
    · intro tv htv
      simp at htv
    · intro q hq
      rw [hsing, happ]
      exact manifestFind_append_ne hq
    · intro tv k v v' htv
      simp at htv
  | some tv0 =>
    have hmap : applyChange t m c =
        m.map (fun e =>
          if e.1 == c.path then (e.1, tvUpdate e.2 t c.newVersion) else e) := by
      rw [applyChange, hfind]
    have hTv0 : TvOk tv0 := by
      obtain ⟨e, he, htv⟩ := manifestFind_some_mem hfind
      exact htv ▸ hInv e he
    refine ⟨?_, ?_, ?_, ?_⟩
    · rw [hsing, hmap]
      intro e he
      obtain ⟨e', he', heq⟩ := List.mem_map.mp he
      by_cases hb : (e'.1 == c.path) = true
      · rw [if_pos hb] at heq
        subst heq
        have hfound : manifestFind m e'.1 = some e'.2 :=
          manifestFind_of_mem_nodup hkeys he'
        have hpath : e'.1 = c.path := by simpa using hb
        rw [hpath, hfind] at hfound
        have he2 : tv0 = e'.2 := Option.some.inj hfound
        rw [← he2]
        refine ⟨hnew, ?_⟩
        intro p hp
        simp only [tvUpdate] at hp
        cases ht : t == "latest" with
        | true =>
          rw [ht] at hp
          simp only [if_true] at hp
          exact (hdom' tv0 hfind).2 p hp
        | false =>
          rw [ht] at hp
          simp only [Bool.false_eq_true, if_false] at hp
          rcases setAssoc_mem p hp with rfl | hmem
          · exact verLeB_refl hnew
          · exact (hdom' tv0 hfind).2 p hmem
      · rw [if_neg hb] at heq
        subst heq
        exact hInv e' he'
    · intro tv htv
      have htv0 : tv0 = tv := Option.some.inj htv
      subst htv0
      refine ⟨?_, rfl, ?_⟩
      · rw [hsing, hmap]
        exact manifestFind_map_update (g := fun x => tvUpdate x t c.newVersion) hfind
      · exact (hdom' tv0 hfind).1
    · intro q hq
      rw [hsing, hmap]
      exact manifestFind_map_ne (g := fun x => tvUpdate x t c.newVersion) hq
    · intro tv k v v' htv hget hget'
      have htv0 : tv0 = tv := Option.some.inj htv
      subst htv0
      simp only [tvGet] at hget hget'
      have hvparse : (parseSemver v).isSome = true := by
        cases hk : k == "latest" with
        | true =>
          rw [hk, if_pos rfl] at hget
          cases Option.some.inj hget
          exact hTv0.1
        | false =>
          rw [hk] at hget
          simp only [Bool.false_eq_true, if_false] at hget
          exact verLeB_parse_left (hTv0.2 (k, v) (lookup_mem hget))
      cases hk : k == "latest" with
      | true =>
        rw [hk, if_pos rfl] at hget hget'
        cases Option.some.inj hget
        cases Option.some.inj hget'
        exact (hdom' tv0 hfind).1
      | false =>
        rw [hk] at hget hget'
        simp only [Bool.false_eq_true, if_false] at hget hget'
        simp only [tvUpdate] at hget'
        cases ht : t == "latest" with
        | true =>
          rw [ht] at hget'
          simp only [if_true] at hget'
          rw [hget] at hget'
          cases Option.some.inj hget'
          exact verLeB_refl hvparse
        | false =>
          rw [ht] at hget'
          simp only [Bool.false_eq_true, if_false] at hget'
          by_cases hkt : k = t
          · subst hkt
            rw [lookup_setAssoc_self] at hget'
            cases Option.some.inj hget'
            exact (hdom' tv0 hfind).2 (k, v) (lookup_mem hget)
          · rw [lookup_setAssoc_ne hkt] at hget'
            rw [hget] at hget'
            cases Option.some.inj hget'
            exact verLeB_refl hvparse

/-- Witness for the amended C4 theorem at concrete inputs. -/
theorem C4_amended_update_preserves_given_domination_witness :
    InvManifest (updateManifest mC4W [cC4W] "main")
    ∧ ∀ q, q ≠ cC4W.path →
        manifestFind (updateManifest mC4W [cC4W] "main") q = manifestFind mC4W q :=
  ⟨(C4_amended_update_preserves_given_domination mC4W cC4W "main"
      (by unfold InvManifest TvOk; decide) (by decide) rfl (by decide)).1,
   (C4_amended_update_preserves_given_domination mC4W cC4W "main"
      (by unfold InvManifest TvOk; decide) (by decide) rfl (by decide)).2.2.1⟩
